import Mathlib

/-!
Shallow embedding of `expandvars.py`: a Unix-shell-style variable expander.

The Python module consists of
* helpers `_valid_char` and `_isint`,
* class `Expander` with methods `process_buffr` (modifier resolution),
  `expand_var`, `expand_modifier_var`, `expand_val` (the scanning state
  machine) and `_next_or_done`,
* the wrapper function `expandvars`.

The environment (`os.environ`) is modelled as an explicit association list
threaded through the computation; raised `ValueError`s are modelled as an
`Except` error type.  The Python scanner is a set of mutually recursive
methods over a shared character iterator; every method returns only once the
iterator is exhausted, so the embedding below threads the remaining input
explicitly and inlines the mutual recursion into one structurally recursive
function `scan` over the remaining character list (the current character is
carried in the phase argument).  All character-class predicates are the
ASCII fragment of the corresponding Python `str` methods.
-/

deriving instance DecidableEq for Except

namespace Expandvars

/-- The key/value store backing the expansion (`os.environ`). -/
abbrev Store := List (String × String)

/-- Lookup of a key in the store (`environ[x]` presence and value). -/
def Store.get : Store → String → Option String
  | [], _ => none
  | (k, v) :: rest, key => if k = key then some v else Store.get rest key

/-- `environ.get(x, d)`: lookup with default. -/
def Store.getD (s : Store) (key d : String) : String :=
  (Store.get s key).getD d

/-- `x in environ`. -/
def Store.contains (s : Store) (key : String) : Bool :=
  (Store.get s key).isSome

/-- `environ.update({k: v})`: set a key (overwrite if present, append if absent). -/
def Store.update : Store → String → String → Store
  | [], k, v => [(k, v)]
  | (k', v') :: rest, k, v =>
    if k' = k then (k', v) :: rest else (k', v') :: Store.update rest k v

/-- `_valid_char(char)`: `char.isalnum() or char == "_"` (ASCII fragment). -/
def valid_char (c : Char) : Bool :=
  c.isAlphanum || c = '_'

/-- Python whitespace for `str.strip` / `int()` (ASCII fragment). -/
def pyIsSpace (c : Char) : Bool :=
  c = ' ' || c = '\t' || c = '\n' || c = '\r' || c = '\x0b' || c = '\x0c'

/-- Strip trailing whitespace (helper for `str.strip`). -/
def rstripList (cs : List Char) : List Char :=
  (cs.reverse.dropWhile pyIsSpace).reverse

/-- `str.strip()` on a character list. -/
def stripList (cs : List Char) : List Char :=
  rstripList (cs.dropWhile pyIsSpace)

/-- `str.isalnum()` (ASCII fragment): nonempty and all alphanumeric. -/
def pyIsAlnum (cs : List Char) : Bool :=
  !cs.isEmpty && cs.all Char.isAlphanum

/-- `str.isalpha()` (ASCII fragment). -/
def pyIsAlpha (cs : List Char) : Bool :=
  !cs.isEmpty && cs.all Char.isAlpha

/-- `str.isdigit()` (ASCII fragment). -/
def pyIsDigit (cs : List Char) : Bool :=
  !cs.isEmpty && cs.all Char.isDigit

/-- Digit run of `int()` after the first digit: ASCII digits, single
underscores allowed between digits. -/
def pyIntDigits : List Char → Nat → Option Nat
  | [], acc => some acc
  | '_' :: c :: cs, acc =>
    if c.isDigit then pyIntDigits cs (acc * 10 + (c.toNat - 48)) else none
  | '_' :: [], _ => none
  | c :: cs, acc =>
    if c.isDigit then pyIntDigits cs (acc * 10 + (c.toNat - 48)) else none

/-- Unsigned part of `int()`: must start with a digit. -/
def pyIntNat : List Char → Option Nat
  | [] => none
  | c :: cs => if c.isDigit then pyIntDigits cs (c.toNat - 48) else none

/-- Python `int(s)` on a string: strip whitespace, optional sign, digit run.
`none` models `int()` raising `ValueError`; `_isint` is `(pyInt s).isSome`. -/
def pyInt (cs : List Char) : Option Int :=
  match stripList cs with
  | [] => none
  | c :: rest =>
    if c = '+' then (pyIntNat rest).map Int.ofNat
    else if c = '-' then (pyIntNat rest).map (fun n => -(n : Int))
    else (pyIntNat (c :: rest)).map Int.ofNat

/-- Python slice `s[i:]` for an arbitrary integer `i` (negative counts from
the end, out-of-range clamps). -/
def pyDropInt (cs : List Char) (i : Int) : List Char :=
  if i < 0 then cs.drop (cs.length - (-i).toNat) else cs.drop i.toNat

/-- `"".join(buffr).split(":", 1)`: parts before and after the first
occurrence of `sep` (the whole list and `[]` when `sep` is absent). -/
def splitFirst (sep : Char) : List Char → List Char × List Char
  | [] => ([], [])
  | c :: rest =>
    if c = sep then ([], rest)
    else
      let p := splitFirst sep rest
      (c :: p.1, p.2)

/-- The four `ValueError`s `process_buffr` / `expand_modifier_var` can raise,
plus the unguarded `int()` failure at `z = int(z)` (line 101). -/
inductive ExpandError where
  /-- `"bad substitution"` (line 78). -/
  | badSubstitution : ExpandError
  /-- `"... syntax error: operand expected (error token is ...)"` (line 95). -/
  | operandExpected : String → ExpandError
  /-- `"...: substring expression < 0"` (line 103). -/
  | negativeLength : Int → ExpandError
  /-- `'...: "..." was never closed.'` (line 144), carrying the buffer. -/
  | unterminatedBrace : String → ExpandError
  /-- An unhandled `ValueError` escaping from `int()` at line 101/109. -/
  | invalidIntLiteral : String → ExpandError
deriving DecidableEq, Repr

/-- The mutable state of an `Expander` instance: `_result`, `_buffr` and the
process-wide store `environ`. -/
structure St where
  result : String
  buffr : List Char
  env : Store
deriving DecidableEq, Repr

/-- `self._buffr.append(c)`. -/
def pushBuffr (st : St) (c : Char) : St :=
  { st with buffr := st.buffr ++ [c] }

/-- `self._result.append(c)`. -/
def pushResult (st : St) (c : Char) : St :=
  { st with result := st.result.push c }

/-- `self._result.extend(s)`. -/
def extendResult (st : St) (s : String) : St :=
  { st with result := st.result ++ s }

/-- `y.startswith(c)` for a single character. -/
def startsWith1 (c : Char) : List Char → Bool
  | [] => false
  | x :: _ => x = c

/-- The modifier dispatch of `Expander.process_buffr` (lines 60-111), on the
already split and stripped variable name `x` and modifier text `y`. -/
def resolveMod (x y : List Char) (st : St) : Except ExpandError St :=
  -- lines 60-65: modifier "+": alternate value; `y = y[1:]`
  if startsWith1 '+' y then
    if Store.contains st.env (String.mk x) then
      .ok { extendResult st (String.mk y.tail) with buffr := [] }
    else .ok { st with buffr := [] }
  -- lines 67-74: modifiers "-" (default) and "=" (assign default)
  else if startsWith1 '-' y || startsWith1 '=' y then
    .ok { extendResult st (Store.getD st.env (String.mk x) (String.mk y.tail)) with
          buffr := [],
          env := if startsWith1 '=' y && !Store.contains st.env (String.mk x)
                 then Store.update st.env (String.mk x) (String.mk y.tail)
                 else st.env }
  -- lines 76-85: single-offset slice form
  else if ':' ∉ y then
    if ¬ pyIsAlnum y then .error .badSubstitution
    else
      match pyInt y with
      | none =>
        -- lines 79-82: `not _isint(y)`: emit the value unsliced
        .ok { extendResult st (Store.getD st.env (String.mk x) "") with buffr := [] }
      | some n =>
        -- line 83: `environ.get(x, "")[int(y):]`
        .ok { extendResult st
                (String.mk (pyDropInt (Store.getD st.env (String.mk x) "").toList n)) with
              buffr := [] }
  else
    -- lines 87-88: two-part slice: split again and strip
    let q := splitFirst ':' y
    let y2 := stripList q.1
    let z := stripList q.2
    -- lines 90-92: empty or purely alphabetic length: emit nothing
    if z = [] ∨ pyIsAlpha z then .ok { st with buffr := [] }
    -- lines 94-99: neither alphanumeric nor an integer literal
    else if ¬ pyIsAlnum z ∧ (pyInt z).isNone then
      .error (.operandExpected (String.mk z))
    else
      -- line 101: `z = int(z)`; an alnum non-integer escapes as a raw ValueError
      match pyInt z with
      | none => .error (.invalidIntLiteral (String.mk z))
      | some zi =>
        -- lines 102-103: negative length
        if zi < 0 then .error (.negativeLength zi)
        -- lines 105-108: offset empty or not all digits: `[:z]`
        else if y2 = [] ∨ ¬ pyIsDigit y2 then
          .ok { extendResult st
                  (String.mk ((Store.getD st.env (String.mk x) "").toList.take zi.toNat)) with
                buffr := [] }
        else
          -- lines 109-110: `[int(y) : int(y) + z]`
          match pyInt y2 with
          | none => .error (.invalidIntLiteral (String.mk y2))
          | some yi =>
            .ok { extendResult st
                    (String.mk (((Store.getD st.env (String.mk x) "").toList.drop yi.toNat).take zi.toNat)) with
                  buffr := [] }

/-- `Expander.process_buffr` (lines 49-111): resolve and clear the scratch
buffer, appending the substituted text to the result. -/
def process_buffr (st : St) : Except ExpandError St :=
  -- lines 50-51: `if not self._buffr: return`
  if st.buffr = [] then .ok st
  -- lines 52-55: no ":" in the buffer: plain lookup of the unsplit name
  else if ':' ∉ st.buffr then
    .ok { extendResult st (Store.getD st.env (String.mk st.buffr) "") with buffr := [] }
  else
    -- lines 57-58: split on the first ":", strip both parts, and dispatch
    let p := splitFirst ':' st.buffr
    resolveMod (stripList p.1) (stripList p.2) st

/-- The tail `self.expand_val(variter, c)` executed with `c = "$"` on an
exhausted iterator after the un-`return`ed recursive `expand_var` call
(lines 131-133 and 149-151): flush at line 154, flush at line 114, flush in
`_next_or_done` (line 46), then append a literal `"$"` (line 118). -/
def dollarTail (st : St) : Except ExpandError St := do
  let st ← process_buffr st
  let st ← process_buffr st
  let st ← process_buffr st
  .ok (pushResult st '$')

/-- The scanner phase: which Python loop is executing, carrying the current
character where the loop holds one. -/
inductive Phase where
  /-- inside the name loop of `expand_var` (lines 125-129), current char `c` -/
  | simpleVar : Char → Phase
  /-- inside the literal loop of `expand_val` (lines 156-158), current char `c` -/
  | valLoop : Char → Phase
  /-- inside the brace loop of `expand_modifier_var` (lines 138-144) -/
  | scanBrace : Phase
  /-- just consumed the closing `"}"`, at `c = self._next_or_done(variter)`
  (line 146) -/
  | afterBrace : Phase
  /-- entering `expand_val(variter, c)` (line 153) with current char `c` -/
  | valEntry : Char → Phase
  /-- entering `expand_var(variter)` (line 113) followed by the fall-through
  `expand_val(variter, "$")` of lines 149-151 -/
  | varStartTail : Phase
deriving DecidableEq, Repr

/-- The scanning state machine of `Expander`, inlined into one structurally
recursive function over the remaining input.  Every Python method returns
only once the shared iterator is exhausted, so after a nested
`expand_var(variter)` call the continuation runs on empty input. -/
def scan : List Char → Phase → St → Except ExpandError St
  | [], .simpleVar c, st =>
    if valid_char c then
      -- line 126: append the name character; line 46 flush; lines 128-129 return
      process_buffr (pushBuffr st c)
    else
      (do
        let st ← process_buffr st                  -- line 130
        if c = '$' then
          -- lines 131-132 on an exhausted iterator, then fall-through line 133
          let st ← (do
            let st ← process_buffr st              -- lines 114-115 (buffer already cleared)
            let st ← process_buffr st              -- line 46 flush
            pure (pushResult st '$'))              -- lines 117-119: bare trailing "$"
          dollarTail st                            -- line 133 on the exhausted iterator
        else do
          -- line 133: expand_val(variter, c) with c ≠ "$" and nothing left
          let st ← process_buffr st                -- lines 154-155
          process_buffr (pushResult st c))         -- line 157; line 46 flush
  | c' :: rest, .simpleVar c, st =>
    if valid_char c then
      -- lines 126-127: append the name character and continue the while loop
      scan rest (.simpleVar c') (pushBuffr st c)
    else
      (do
        let st ← process_buffr st                  -- line 130
        if c = '$' then
          -- lines 131-132: recursive expand_var, then fall-through line 133
          let st ← (do
            let st ← process_buffr st              -- lines 114-115 (buffer already cleared)
            if c' = '{' then do
              let st ← process_buffr st            -- lines 136-137
              scan rest .scanBrace st
            else scan rest (.simpleVar c') st)
          dollarTail st                            -- line 133 on the exhausted iterator
        else do
          -- line 133: expand_val(variter, c) with c ≠ "$"
          let st ← process_buffr st                -- lines 154-155
          scan rest (.valLoop c') (pushResult st c))  -- line 157
  | [], .valLoop c, st =>
    if c = '$' then do
      -- lines 159-160: expand_var(variter) on an exhausted iterator
      let st ← process_buffr st                    -- lines 114-115
      let st ← process_buffr st                    -- line 46 flush
      pure (pushResult st '$')                     -- lines 117-119
    else
      process_buffr (pushResult st c)              -- line 157; line 46 flush; loop ends
  | c' :: rest, .valLoop c, st =>
    if c = '$' then do
      -- lines 159-160: expand_var(variter)
      let st ← process_buffr st                    -- lines 114-115
      if c' = '{' then do
        let st ← process_buffr st                  -- lines 136-137
        scan rest .scanBrace st
      else scan rest (.simpleVar c') st
    else
      scan rest (.valLoop c') (pushResult st c)    -- line 157
  | [], .scanBrace, st =>
    -- lines 143-144: input exhausted before "}"
    .error (.unterminatedBrace (String.mk st.buffr))
  | c :: rest, .scanBrace, st =>
    if c = '}' then
      scan rest .afterBrace st                     -- line 146: read the next char
    else
      scan rest .scanBrace (pushBuffr st c)        -- lines 140-142: collect
  | [], .afterBrace, st =>
    process_buffr st                               -- line 46 flush; lines 147-148 return
  | c2 :: rest', .afterBrace, st =>
    if c2 = '$' then
      scan rest' .varStartTail st                  -- lines 149-151
    else
      scan rest' (.valEntry c2) st                 -- line 151: expand_val(variter, c)
  | [], .valEntry c, st => do
    let st ← process_buffr st                      -- lines 154-155 (braced buffer flushes)
    if c = '$' then do
      -- lines 159-160: expand_var(variter) on an exhausted iterator
      let st ← process_buffr st                    -- lines 114-115
      let st ← process_buffr st                    -- line 46 flush
      pure (pushResult st '$')                     -- lines 117-119
    else
      process_buffr (pushResult st c)              -- line 157; line 46 flush
  | c' :: rest, .valEntry c, st => do
    let st ← process_buffr st                      -- lines 154-155 (braced buffer flushes)
    if c = '$' then do
      -- lines 159-160: expand_var(variter)
      let st ← process_buffr st                    -- lines 114-115
      if c' = '{' then do
        let st ← process_buffr st                  -- lines 136-137
        scan rest .scanBrace st
      else scan rest (.simpleVar c') st
    else
      scan rest (.valLoop c') (pushResult st c)    -- line 157
  | [], .varStartTail, st => do
    -- lines 149-150 with nothing after the "$": expand_var on exhausted input
    let st ← process_buffr st                      -- lines 114-115 (braced buffer flushes)
    let st ← (do
      let st ← process_buffr st                    -- line 46 flush
      pure (pushResult st '$'))                    -- lines 117-119
    dollarTail st                                  -- line 151 on the exhausted iterator
  | c' :: rest, .varStartTail, st => do
    let st ← process_buffr st                      -- lines 114-115 (braced buffer flushes)
    let st ← (if c' = '{' then do
        let st ← process_buffr st                  -- lines 136-137
        scan rest .scanBrace st
      else scan rest (.simpleVar c') st)
    dollarTail st                                  -- line 151 on the exhausted iterator

/-- `Expander.expand_var` (lines 113-133), entry form: the wrapper used for a
fresh call whose next character is still unread. -/
def expand_var (input : List Char) (st : St) : Except ExpandError St := do
  let st ← process_buffr st                        -- lines 114-115
  match input with
  | [] => do
    let st ← process_buffr st                      -- line 46 flush
    pure (pushResult st '$')                       -- lines 117-119
  | c :: rest =>
    if c = '{' then do
      let st ← process_buffr st                    -- lines 136-137
      scan rest .scanBrace st
    else scan rest (.simpleVar c) st

/-- `Expander.expand_val` (lines 153-160), entry form with the current
character `c` already read. -/
def expand_val (c : Char) (input : List Char) (st : St) : Except ExpandError St :=
  scan input (.valEntry c) st

/-- `Expander.__init__` followed by `.result` (lines 30-40, 162-164): run the
state machine on the whole input and return the joined result together with
the final store. -/
def Expander.run (s : String) (env : Store) : Except ExpandError (String × Store) :=
  match s.toList with
  | [] => .ok ("", env)
  | c :: rest =>
    let st : St := ⟨"", [], env⟩
    match (if c = '$' then expand_var rest st else expand_val c rest st) with
    | .ok st => .ok (st.result, st.env)
    | .error e => .error e

/-- `vars_.startswith("$")`: the first character is the sigil. -/
def startsWithDollar (s : String) : Bool :=
  match s.toList with
  | '$' :: _ => true
  | _ => false

/-- `expandvars(vars_)` (lines 167-185): return the input unchanged unless it
starts with `"$"`, else run the `Expander`. -/
def expandvars (s : String) (env : Store) : Except ExpandError (String × Store) :=
  if startsWithDollar s then Expander.run s env else .ok (s, env)

/-! ## Auxiliary lemmas -/

set_option maxHeartbeats 4000000

theorem uint32_toNat_le {a b : UInt32} (h : a ≤ b) : a.toNat ≤ b.toNat := by
  simpa [UInt32.le_def, BitVec.le_def] using h

/-- An ASCII letter is not an ASCII digit. -/
theorem isAlpha_isDigit_false (c : Char) (h : c.isAlpha = true) : c.isDigit = false := by
  simp only [Char.isAlpha, Char.isUpper, Char.isLower, Char.isDigit, Bool.or_eq_true,
    Bool.and_eq_true, decide_eq_true_eq] at *
  simp only [Bool.and_eq_false_iff, decide_eq_false_iff_not, not_le]
  rcases h with ⟨h1, h2⟩ | ⟨h1, h2⟩ <;>
  · right
    have ha := uint32_toNat_le h1
    intro h57
    have hb := uint32_toNat_le h57
    have e1 : (65 : UInt32).toNat = 65 := rfl
    have e2 : (97 : UInt32).toNat = 97 := rfl
    have e3 : (57 : UInt32).toNat = 57 := rfl
    omega

theorem splitFirst_append (sep : Char) (a b : List Char) (h : sep ∉ a) :
    splitFirst sep (a ++ sep :: b) = (a, b) := by
  induction a with
  | nil => simp [splitFirst]
  | cons x xs ih =>
    have hx : x ≠ sep := fun hh => h (hh ▸ List.mem_cons_self x xs)
    have ih' := ih (fun hm => h (List.mem_cons_of_mem x hm))
    simp [splitFirst, hx, ih']

theorem length_dropWhile_le (p : Char → Bool) :
    ∀ l : List Char, (l.dropWhile p).length ≤ l.length
  | [] => le_refl _
  | x :: xs => by
    rw [List.dropWhile_cons]
    by_cases h : p x
    · simp only [h, if_true]
      exact le_trans (length_dropWhile_le p xs) (Nat.le_succ _)
    · simp [h]

theorem dropWhile_head_false {p : Char → Bool} {x : Char} {xs : List Char}
    (h : (x :: xs).dropWhile p = x :: xs) : p x = false := by
  by_contra hc
  simp only [Bool.not_eq_false] at hc
  rw [List.dropWhile_cons, if_pos hc] at h
  have h1 := length_dropWhile_le p xs
  have h2 := congrArg List.length h
  simp at h2
  omega

theorem dropWhile_append_cons (p : Char → Bool) (a : List Char) (m : Char) (b : List Char)
    (ha : a.dropWhile p = a) (hm : p m = false) :
    (a ++ m :: b).dropWhile p = a ++ m :: b := by
  cases a with
  | nil => simp [List.dropWhile_cons, hm]
  | cons x xs =>
    have hx : p x = false := dropWhile_head_false ha
    simp [List.dropWhile_cons, hx]

/-- Stripping leaves a token alone when its first and last characters are
not whitespace. -/
theorem stripList_append_cons (a : List Char) (m : Char) (b : List Char)
    (ha : a.dropWhile pyIsSpace = a) (hb : b.reverse.dropWhile pyIsSpace = b.reverse)
    (hm : pyIsSpace m = false) : stripList (a ++ m :: b) = a ++ m :: b := by
  unfold stripList rstripList
  rw [dropWhile_append_cons pyIsSpace a m b ha hm]
  have : (a ++ m :: b).reverse = b.reverse ++ m :: a.reverse := by
    simp
  rw [this, dropWhile_append_cons pyIsSpace b.reverse m a.reverse hb hm]
  simp

theorem stripList_eq_self (a : List Char) (h1 : a.dropWhile pyIsSpace = a)
    (h2 : a.reverse.dropWhile pyIsSpace = a.reverse) : stripList a = a := by
  unfold stripList rstripList
  rw [h1, h2]
  simp

theorem stripList_all_space (ws : List Char) (h : ∀ c ∈ ws, pyIsSpace c = true) :
    stripList ws = [] := by
  unfold stripList rstripList
  have : ws.dropWhile pyIsSpace = [] := List.dropWhile_eq_nil_iff.mpr (by simpa using h)
  rw [this]
  rfl

theorem Store.get_update_self (s : Store) (k v : String) :
    Store.get (Store.update s k v) k = some v := by
  induction s with
  | nil => simp [Store.update, Store.get]
  | cons p rest ih =>
    by_cases hk : p.1 = k
    · simp [Store.update, Store.get, hk]
    · simp [Store.update, Store.get, hk, ih]

theorem Store.get_update_ne (s : Store) (k v k' : String) (h : k' ≠ k) :
    Store.get (Store.update s k v) k' = Store.get s k' := by
  have hk' : k ≠ k' := fun hh => h hh.symm
  induction s with
  | nil => simp [Store.update, Store.get, hk']
  | cons p rest ih =>
    by_cases hk : p.1 = k
    · subst hk
      simp only [Store.update, if_pos rfl, Store.get]
      rw [if_neg hk', if_neg hk']
    · simp only [Store.update, if_neg hk, Store.get]
      by_cases hp : p.1 = k'
      · rw [if_pos hp, if_pos hp]
      · rw [if_neg hp, if_neg hp, ih]

theorem pyInt_some_ne_nil {z : List Char} {n : Int} (h : pyInt z = some n) : z ≠ [] := by
  intro he
  subst he
  simp [pyInt, stripList, rstripList, pyIntNat] at h

/-- A token that `int()` accepts is not purely alphabetic. -/
theorem pyInt_some_not_alpha {z : List Char} {n : Int} (hz : stripList z = z)
    (h : pyInt z = some n) : pyIsAlpha z = false := by
  cases z with
  | nil => simp [pyIsAlpha]
  | cons c cs =>
    by_contra hc
    simp only [Bool.not_eq_false] at hc
    have hall : c.isAlpha = true ∧ ∀ x ∈ cs, x.isAlpha = true := by
      simpa [pyIsAlpha, List.all_eq_true] using hc
    have hplus : ¬(c = '+') := by
      intro he
      rw [he] at hall
      exact absurd hall.1 (by decide)
    have hminus : ¬(c = '-') := by
      intro he
      rw [he] at hall
      exact absurd hall.1 (by decide)
    unfold pyInt at h
    rw [hz] at h
    simp only [if_neg hplus, if_neg hminus] at h
    have hred : pyIntNat (c :: cs) =
        if c.isDigit = true then pyIntDigits cs (c.toNat - 48) else none := rfl
    rw [hred, isAlpha_isDigit_false c hall.1] at h
    simp at h

/-- A token `int()` accepts whose first character is alphanumeric or a digit
parses to a non-negative integer (no sign is possible). -/
theorem pyInt_nonneg_of_head_not_sign {z : List Char} {n : Int} (hz : stripList z = z)
    (hd : pyIsAlnum z = true ∨ pyIsDigit z = true) (h : pyInt z = some n) : 0 ≤ n := by
  cases z with
  | nil => exact absurd rfl (pyInt_some_ne_nil h)
  | cons c cs =>
    have hcg : c.isAlphanum = true ∨ c.isDigit = true := by
      rcases hd with hd | hd
      · exact Or.inl (by simpa [pyIsAlnum, List.all_eq_true] using (by
          simpa [pyIsAlnum, List.all_eq_true] using hd : c.isAlphanum = true ∧
            ∀ x ∈ cs, x.isAlphanum = true).1)
      · exact Or.inr (by
          have := (by simpa [pyIsDigit, List.all_eq_true] using hd : c.isDigit = true ∧
            ∀ x ∈ cs, x.isDigit = true)
          exact this.1)
    have hplus : ¬(c = '+') := by
      intro he
      rw [he] at hcg
      rcases hcg with hh | hh <;> exact absurd hh (by decide)
    have hminus : ¬(c = '-') := by
      intro he
      rw [he] at hcg
      rcases hcg with hh | hh <;> exact absurd hh (by decide)
    unfold pyInt at h
    rw [hz] at h
    simp only [if_neg hplus, if_neg hminus, Option.map_eq_some'] at h
    obtain ⟨k, _, hk⟩ := h
    rw [← hk]
    exact Int.ofNat_nonneg k

theorem process_buffr_empty (st : St) (h : st.buffr = []) : process_buffr st = .ok st := by
  simp [process_buffr, h]

/-- `expand_modifier_var`'s collection loop on input with no closing brace:
the `UnterminatedBrace` error carries everything collected. -/
theorem scan_scanBrace_no_close : ∀ (cs : List Char) (st : St), '}' ∉ cs →
    scan cs .scanBrace st = .error (.unterminatedBrace (String.mk (st.buffr ++ cs)))
  | [], st, _ => by simp [scan]
  | c :: cs, st, h => by
    have hc : ¬(c = '}') := fun hh => h (by simp [hh])
    have ih := scan_scanBrace_no_close cs (pushBuffr st c)
      (fun hm => h (List.mem_cons_of_mem _ hm))
    simp only [scan, if_neg hc]
    rw [ih]
    simp [pushBuffr]

/-- `expand_modifier_var`'s collection loop when the closing brace ends the
input: the collected buffer is resolved. -/
theorem scan_scanBrace_close_end : ∀ (cs : List Char) (st : St), '}' ∉ cs →
    scan (cs ++ ['}']) .scanBrace st = process_buffr { st with buffr := st.buffr ++ cs }
  | [], st, _ => by
    simp only [List.nil_append, List.append_nil]
    simp [scan]
  | c :: cs, st, h => by
    have hc : ¬(c = '}') := fun hh => h (by simp [hh])
    have ih := scan_scanBrace_close_end cs (pushBuffr st c)
      (fun hm => h (List.mem_cons_of_mem _ hm))
    simp only [List.cons_append, scan, if_neg hc, List.append_eq]
    rw [ih]
    simp [pushBuffr]

/-- Resolving a buffer `name ++ ":" ++ mod` whose name part has no colon
dispatches to `resolveMod` on the stripped parts. -/
theorem process_buffr_split (res : String) (env : Store) (name mod : List Char)
    (h : ':' ∉ name) :
    process_buffr ⟨res, name ++ ':' :: mod, env⟩ =
      resolveMod (stripList name) (stripList mod) ⟨res, name ++ ':' :: mod, env⟩ := by
  have hne : name ++ ':' :: mod ≠ [] := by simp
  have hmem : ':' ∈ name ++ ':' :: mod := by simp
  simp only [process_buffr, hne, if_false, if_neg (not_not_intro hmem)]
  rw [splitFirst_append ':' name mod h]

theorem startsWith1_false_of_head (y : List Char) (m : Char)
    (hm : m = '+' ∨ m = '-' ∨ m = '=')
    (hhead : ∀ o, y.head? = some o → o ≠ '+' ∧ o ≠ '-' ∧ o ≠ '=') :
    startsWith1 m y = false := by
  cases y with
  | nil => rcases hm with rfl | rfl | rfl <;> rfl
  | cons o l =>
    obtain ⟨h1, h2, h3⟩ := hhead o rfl
    rcases hm with rfl | rfl | rfl <;> simp [startsWith1, h1, h2, h3]

theorem startsWith1_slice_false (off len : List Char) (m : Char)
    (hm : m = '+' ∨ m = '-' ∨ m = '=')
    (hhead : ∀ o, off.head? = some o → o ≠ '+' ∧ o ≠ '-' ∧ o ≠ '=') :
    startsWith1 m (off ++ ':' :: len) = false := by
  cases off with
  | nil => rcases hm with rfl | rfl | rfl <;> rfl
  | cons o off' =>
    obtain ⟨h1, h2, h3⟩ := hhead o rfl
    rcases hm with rfl | rfl | rfl <;> simp [startsWith1, h1, h2, h3]

/-! ## Claims -/

/-- C1: for every input string that does not begin with the sigil `"$"`
(including the empty string), `expandvars` returns the input unchanged with
the store untouched — no parsing is attempted. -/
theorem expandvars_no_sigil_identity :
    (∀ (s : String) (env : Store), startsWithDollar s = false →
      expandvars s env = .ok (s, env)) ∧
    expandvars "" [] = .ok ("", []) := by
  refine ⟨?_, by decide⟩
  intro s env h
  simp [expandvars, h]

theorem expandvars_no_sigil_identity_witness :
    startsWithDollar "hello" = false ∧
      expandvars "hello" [("K", "v")] = .ok ("hello", [("K", "v")]) :=
  ⟨by decide, expandvars_no_sigil_identity.1 "hello" [("K", "v")] (by decide)⟩

/-- C2: resolving the buffer of `${NAME:-WORD}` appends
`store.get(NAME, WORD)` — `WORD` when `NAME` is unset, the stored value when
set — and never mutates the store.  The tokens carry no surrounding
whitespace and `NAME` has no colon, matching the grammar of the reference. -/
theorem default_modifier_spec :
    (∀ (name word : List Char) (res : String) (env : Store),
      ':' ∉ name →
      name.dropWhile pyIsSpace = name →
      name.reverse.dropWhile pyIsSpace = name.reverse →
      word.reverse.dropWhile pyIsSpace = word.reverse →
      process_buffr ⟨res, name ++ ':' :: '-' :: word, env⟩ =
        .ok ⟨res ++ Store.getD env (String.mk name) (String.mk word), [], env⟩) ∧
    expandvars "$\x7bNAME:-default\x7d" [] = .ok ("default", []) ∧
    expandvars "$\x7bNAME:-default\x7d" [("NAME", "v")] = .ok ("v", [("NAME", "v")]) := by
  refine ⟨?_, by decide, by decide⟩
  intro name word res env h hnl hnr hwr
  rw [process_buffr_split res env name ('-' :: word) h,
      stripList_eq_self name hnl hnr]
  have hw : stripList ('-' :: word) = '-' :: word := by
    simpa using stripList_append_cons [] '-' word (by simp) hwr (by decide)
  rw [hw]
  simp [resolveMod, startsWith1, extendResult]

theorem default_modifier_spec_witness :
    (':' ∉ ['F', 'O', 'O'] ∧
      List.dropWhile pyIsSpace ['F', 'O', 'O'] = ['F', 'O', 'O'] ∧
      List.dropWhile pyIsSpace (List.reverse ['F', 'O', 'O']) = List.reverse ['F', 'O', 'O'] ∧
      List.dropWhile pyIsSpace (List.reverse ['d', 'e', 'f']) = List.reverse ['d', 'e', 'f']) ∧
    process_buffr ⟨"", ['F', 'O', 'O'] ++ ':' :: '-' :: ['d', 'e', 'f'], []⟩ =
      .ok ⟨"" ++ Store.getD [] (String.mk ['F', 'O', 'O']) (String.mk ['d', 'e', 'f']), [], []⟩ :=
  ⟨⟨by decide, by decide, by decide, by decide⟩,
    default_modifier_spec.1 ['F', 'O', 'O'] ['d', 'e', 'f'] "" []
      (by decide) (by decide) (by decide) (by decide)⟩

/-- C3: resolving the buffer of `${NAME:=WORD}` appends
`store.get(NAME, WORD)` and sets `store[NAME] = WORD` exactly when `NAME` was
absent beforehand; no other key changes and subsequent lookups of `NAME`
observe the assigned value. -/
theorem assign_modifier_spec :
    (∀ (name word : List Char) (res : String) (env : Store),
      ':' ∉ name →
      name.dropWhile pyIsSpace = name →
      name.reverse.dropWhile pyIsSpace = name.reverse →
      word.reverse.dropWhile pyIsSpace = word.reverse →
      process_buffr ⟨res, name ++ ':' :: '=' :: word, env⟩ =
        .ok ⟨res ++ Store.getD env (String.mk name) (String.mk word), [],
             if Store.contains env (String.mk name) then env
             else Store.update env (String.mk name) (String.mk word)⟩ ∧
      (Store.contains env (String.mk name) = false →
        Store.get (Store.update env (String.mk name) (String.mk word)) (String.mk name) =
          some (String.mk word)) ∧
      (∀ k : String, k ≠ String.mk name →
        Store.get (Store.update env (String.mk name) (String.mk word)) k =
          Store.get env k)) ∧
    expandvars "$\x7bNAME:=default\x7d" [] = .ok ("default", [("NAME", "default")]) ∧
    expandvars "$\x7bNAME:=w\x7d" [("NAME", "v")] = .ok ("v", [("NAME", "v")]) := by
  refine ⟨?_, by decide, by decide⟩
  intro name word res env h hnl hnr hwr
  refine ⟨?_, fun _ => Store.get_update_self env (String.mk name) (String.mk word),
    fun k hk => Store.get_update_ne env (String.mk name) (String.mk word) k hk⟩
  rw [process_buffr_split res env name ('=' :: word) h,
      stripList_eq_self name hnl hnr]
  have hw : stripList ('=' :: word) = '=' :: word := by
    simpa using stripList_append_cons [] '=' word (by simp) hwr (by decide)
  rw [hw]
  by_cases hc : Store.contains env (String.mk name)
  · simp [resolveMod, startsWith1, extendResult, hc]
  · simp [resolveMod, startsWith1, extendResult, hc]

theorem assign_modifier_spec_witness :
    (':' ∉ ['N'] ∧
      List.dropWhile pyIsSpace ['N'] = ['N'] ∧
      List.dropWhile pyIsSpace (List.reverse ['N']) = List.reverse ['N'] ∧
      List.dropWhile pyIsSpace (List.reverse ['w']) = List.reverse ['w']) ∧
    process_buffr ⟨"", ['N'] ++ ':' :: '=' :: ['w'], []⟩ =
      .ok ⟨"" ++ Store.getD [] (String.mk ['N']) (String.mk ['w']), [],
           if Store.contains [] (String.mk ['N']) then []
           else Store.update [] (String.mk ['N']) (String.mk ['w'])⟩ :=
  ⟨⟨by decide, by decide, by decide, by decide⟩,
    (assign_modifier_spec.1 ['N'] ['w'] "" []
      (by decide) (by decide) (by decide) (by decide)).1⟩

/-- C4: resolving the buffer of `${NAME:+WORD}` appends `WORD` verbatim (the
literal characters, with no re-expansion and no store write) when `NAME`
exists in the store, and appends nothing when `NAME` is unset. -/
theorem alternate_modifier_spec :
    (∀ (name word : List Char) (res : String) (env : Store),
      ':' ∉ name →
      name.dropWhile pyIsSpace = name →
      name.reverse.dropWhile pyIsSpace = name.reverse →
      word.reverse.dropWhile pyIsSpace = word.reverse →
      process_buffr ⟨res, name ++ ':' :: '+' :: word, env⟩ =
        .ok ⟨res ++ (if Store.contains env (String.mk name) then String.mk word else ""), [],
             env⟩) ∧
    expandvars "$\x7bNAME:+alt\x7d" [("NAME", "x")] = .ok ("alt", [("NAME", "x")]) ∧
    expandvars "$\x7bNAME:+alt\x7d" [] = .ok ("", []) := by
  refine ⟨?_, by decide, by decide⟩
  intro name word res env h hnl hnr hwr
  rw [process_buffr_split res env name ('+' :: word) h,
      stripList_eq_self name hnl hnr]
  have hw : stripList ('+' :: word) = '+' :: word := by
    simpa using stripList_append_cons [] '+' word (by simp) hwr (by decide)
  rw [hw]
  by_cases hc : Store.contains env (String.mk name)
  · simp [resolveMod, startsWith1, extendResult, hc]
  · simp [resolveMod, startsWith1, extendResult, hc]

/-- C5: in the two-part slice `${NAME:OFFSET:LENGTH}` with a valid
non-negative integer `LENGTH`: when `OFFSET` is empty or not all digits the
appended text is `store.get(NAME, "")[:LENGTH]`, otherwise `OFFSET` parses as
a non-negative integer and the appended text is
`store.get(NAME, "")[OFFSET : OFFSET+LENGTH]`; in particular with `NAME`
bound to `"abcdef"`, `${NAME:2:3}` gives `"cde"`, `${NAME:2}` gives
`"cdef"`, and `${NAME::3}` gives `"abc"`. -/
theorem two_part_slice_spec :
    (∀ (name off len : List Char) (res : String) (env : Store) (zi : Int),
      ':' ∉ name →
      name.dropWhile pyIsSpace = name → name.reverse.dropWhile pyIsSpace = name.reverse →
      ':' ∉ off →
      off.dropWhile pyIsSpace = off → off.reverse.dropWhile pyIsSpace = off.reverse →
      len.dropWhile pyIsSpace = len → len.reverse.dropWhile pyIsSpace = len.reverse →
      (∀ o, off.head? = some o → o ≠ '+' ∧ o ≠ '-' ∧ o ≠ '=') →
      pyInt len = some zi → 0 ≤ zi →
      ((off = [] ∨ pyIsDigit off = false) →
        process_buffr ⟨res, name ++ ':' :: (off ++ ':' :: len), env⟩ =
          .ok ⟨res ++ String.mk ((Store.getD env (String.mk name) "").toList.take zi.toNat),
               [], env⟩) ∧
      (∀ oi : Int, pyIsDigit off = true → pyInt off = some oi →
        0 ≤ oi ∧
        process_buffr ⟨res, name ++ ':' :: (off ++ ':' :: len), env⟩ =
          .ok ⟨res ++ String.mk
                 (((Store.getD env (String.mk name) "").toList.drop oi.toNat).take zi.toNat),
               [], env⟩)) ∧
    expandvars "$\x7bNAME:2:3\x7d" [("NAME", "abcdef")] = .ok ("cde", [("NAME", "abcdef")]) ∧
    expandvars "$\x7bNAME:2\x7d" [("NAME", "abcdef")] = .ok ("cdef", [("NAME", "abcdef")]) ∧
    expandvars "$\x7bNAME::3\x7d" [("NAME", "abcdef")] = .ok ("abc", [("NAME", "abcdef")]) := by
  refine ⟨?_, by decide, by decide, by decide⟩
  intro name off len res env zi hcn hn1 hn2 hco ho1 ho2 hl1 hl2 hhead hpz hz0
  have hsn := stripList_eq_self name hn1 hn2
  have hso := stripList_eq_self off ho1 ho2
  have hsl := stripList_eq_self len hl1 hl2
  have hy : stripList (off ++ ':' :: len) = off ++ ':' :: len :=
    stripList_append_cons off ':' len ho1 hl2 (by decide)
  have A : ¬(startsWith1 '+' (off ++ ':' :: len) = true) := by
    rw [startsWith1_slice_false off len '+' (Or.inl rfl) hhead]
    exact Bool.false_ne_true
  have B : ¬((startsWith1 '-' (off ++ ':' :: len) || startsWith1 '=' (off ++ ':' :: len)) = true) := by
    rw [startsWith1_slice_false off len '-' (Or.inr (Or.inl rfl)) hhead,
        startsWith1_slice_false off len '=' (Or.inr (Or.inr rfl)) hhead]
    simp
  have C : ¬(':' ∉ off ++ ':' :: len) := not_not_intro (by simp)
  have D : ¬(len = [] ∨ pyIsAlpha len = true) := by
    rintro (rfl | hA)
    · exact pyInt_some_ne_nil hpz rfl
    · rw [pyInt_some_not_alpha hsl hpz] at hA
      exact Bool.false_ne_true hA
  have E : ¬(¬ pyIsAlnum len = true ∧ (pyInt len).isNone = true) := by
    rintro ⟨_, h2⟩
    rw [hpz] at h2
    simp at h2
  have F : ¬(zi < 0) := not_lt.mpr hz0
  constructor
  · intro hoff
    have G : off = [] ∨ ¬ pyIsDigit off = true := by
      rcases hoff with rfl | hnd
      · exact Or.inl rfl
      · exact Or.inr (by simp [hnd])
    rw [process_buffr_split res env name (off ++ ':' :: len) hcn, hsn, hy]
    simp only [resolveMod, if_neg A, if_neg B, if_neg C,
      splitFirst_append ':' off len hco]
    simp only [hsl, hso]
    rw [if_neg D, if_neg E]
    simp only [hpz]
    rw [if_neg F, if_pos G]
    simp [extendResult]
  · intro oi hdig hpo
    have H : ¬(off = [] ∨ ¬ pyIsDigit off = true) := by
      rintro (rfl | hnd)
      · simp [pyIsDigit] at hdig
      · exact hnd hdig
    refine ⟨pyInt_nonneg_of_head_not_sign hso (Or.inr hdig) hpo, ?_⟩
    rw [process_buffr_split res env name (off ++ ':' :: len) hcn, hsn, hy]
    simp only [resolveMod, if_neg A, if_neg B, if_neg C,
      splitFirst_append ':' off len hco]
    simp only [hsl, hso]
    rw [if_neg D, if_neg E]
    simp only [hpz]
    rw [if_neg F, if_neg H]
    simp only [hpo]
    simp [extendResult]

theorem two_part_slice_spec_witness :
    ((':' ∉ ['N']) ∧ pyInt ['3'] = some 3 ∧ (0 : Int) ≤ 3) ∧
    process_buffr ⟨"", ['N'] ++ ':' :: (([] : List Char) ++ ':' :: ['3']), [("N", "abcdef")]⟩ =
      .ok ⟨"" ++ String.mk ((Store.getD [("N", "abcdef")] (String.mk ['N']) "").toList.take
             (3 : Int).toNat), [], [("N", "abcdef")]⟩ :=
  ⟨⟨by decide, by decide, by decide⟩,
    (two_part_slice_spec.1 ['N'] [] ['3'] "" [("N", "abcdef")] 3
      (by decide) (by decide) (by decide) (by decide) (by decide) (by decide)
      (by decide) (by decide) (by intro o ho; simp at ho) (by decide) (by decide)).1
      (Or.inl rfl)⟩

/-- C6 (code bug): `expand("$FOO-$BAR")` composes left-to-right as the claim
says, but for adjacent references the missing `return` after the recursive
`expand_var` call (lines 131-133) appends a spurious `"$"`:
`expand("$FOO$BAR")` evaluates to `"12$"`, not `"12"`. -/
theorem adjacent_refs_eval :
    expandvars "$FOO-$BAR" [("FOO", "1"), ("BAR", "2")] =
      .ok ("1-2", [("FOO", "1"), ("BAR", "2")]) ∧
    expandvars "$FOO$BAR" [("FOO", "1"), ("BAR", "2")] =
      .ok ("12$", [("FOO", "1"), ("BAR", "2")]) ∧
    ("12$" : String) ≠ "12" :=
  ⟨by decide, by decide, by decide⟩

/-- C7 (amended): in the single-offset slice `${NAME:OFFSET}` the offset
token must be alphanumeric, which excludes any sign, so an accepted integer
`OFFSET` is necessarily non-negative; the appended text is
`store.get(NAME, "")[OFFSET:]` with standard clamping.  A modifier starting
with `"-"` is captured by the default-value branch instead, so a negative
offset never reaches the slice. -/
theorem single_offset_slice_spec (name off : List Char) (res : String) (env : Store) (n : Int)
    (hcn : ':' ∉ name)
    (hn1 : name.dropWhile pyIsSpace = name)
    (hn2 : name.reverse.dropWhile pyIsSpace = name.reverse)
    (hco : ':' ∉ off)
    (ho1 : off.dropWhile pyIsSpace = off)
    (ho2 : off.reverse.dropWhile pyIsSpace = off.reverse)
    (hhead : ∀ o, off.head? = some o → o ≠ '+' ∧ o ≠ '-' ∧ o ≠ '=')
    (halnum : pyIsAlnum off = true) (hpo : pyInt off = some n) :
    0 ≤ n ∧
    process_buffr ⟨res, name ++ ':' :: off, env⟩ =
      .ok ⟨res ++ String.mk (pyDropInt (Store.getD env (String.mk name) "").toList n),
           [], env⟩ := by
  have hsn := stripList_eq_self name hn1 hn2
  have hso := stripList_eq_self off ho1 ho2
  refine ⟨pyInt_nonneg_of_head_not_sign hso (Or.inl halnum) hpo, ?_⟩
  rw [process_buffr_split res env name off hcn, hsn, hso]
  have A : ¬(startsWith1 '+' off = true) := by
    rw [startsWith1_false_of_head off '+' (Or.inl rfl) hhead]
    exact Bool.false_ne_true
  have B : ¬((startsWith1 '-' off || startsWith1 '=' off) = true) := by
    rw [startsWith1_false_of_head off '-' (Or.inr (Or.inl rfl)) hhead,
        startsWith1_false_of_head off '=' (Or.inr (Or.inr rfl)) hhead]
    simp
  have hAl : ¬(¬ pyIsAlnum off = true) := by simp [halnum]
  simp only [resolveMod, if_neg A, if_neg B, if_pos hco]
  rw [if_neg hAl]
  simp only [hpo]
  simp [extendResult]

theorem single_offset_slice_spec_witness :
    (pyIsAlnum ['2'] = true ∧ pyInt ['2'] = some 2) ∧
    (0 : Int) ≤ 2 ∧
    process_buffr ⟨"", ['N'] ++ ':' :: ['2'], [("N", "abcdef")]⟩ =
      .ok ⟨"" ++ String.mk (pyDropInt (Store.getD [("N", "abcdef")] (String.mk ['N']) "").toList 2),
           [], [("N", "abcdef")]⟩ :=
  ⟨⟨by decide, by decide⟩,
    single_offset_slice_spec ['N'] ['2'] "" [("N", "abcdef")] 2
      (by decide) (by decide) (by decide) (by decide) (by decide) (by decide)
      (by intro o ho; simp at ho; subst ho; decide) (by decide) (by decide)⟩

/-- C7 counterexample: with `NAME` bound to `"abcdef"`, the modifier text
`-2` is parsed as the default-value modifier, so `${NAME:-2}` evaluates to
the full stored value `"abcdef"`, not to the claimed `value[-2:] = "ef"`. -/
theorem negative_offset_counterexample :
    expandvars "$\x7bNAME:-2\x7d" [("NAME", "abcdef")] =
      .ok ("abcdef", [("NAME", "abcdef")]) ∧
    ("abcdef" : String) ≠ "ef" :=
  ⟨by decide, by decide⟩

/-- C8: whenever `${` is opened at the start of the input and the input is
exhausted before a matching `}`, expansion fails with the
`UnterminatedBrace` error carrying the collected text, and the whole
expansion aborts with that error alone (no partial result). -/
theorem unterminated_brace_spec (t : String) (env : Store) (h : '}' ∉ t.toList) :
    expandvars ("$\x7b" ++ t) env = .error (.unterminatedBrace t) := by
  rw [show expandvars ("$\x7b" ++ t) env =
      (match scan t.toList .scanBrace ⟨"", [], env⟩ with
       | .ok st => .ok (st.result, st.env)
       | .error e => .error e) from rfl,
    scan_scanBrace_no_close t.toList ⟨"", [], env⟩ h]
  cases t
  rfl

theorem unterminated_brace_spec_witness :
    ('}' ∉ "FOO".toList) ∧
    expandvars ("$\x7b" ++ "FOO") [] = .error (.unterminatedBrace "FOO") :=
  ⟨by decide, unterminated_brace_spec "FOO" [] (by decide)⟩

/-- C9 (amended): for the isolated two-part `LENGTH` token that is neither
empty nor purely alphabetic: when it is neither alphanumeric nor a valid
integer literal, expansion fails with `OperandExpected` carrying the token;
when it is alphanumeric but still not a valid integer (e.g. `1a`), the raw
`int()` conversion error escapes instead; when it parses to a negative
integer, expansion fails with `NegativeLength`, e.g. `${NAME:0:-1}`. -/
theorem slice_length_error_spec :
    (∀ (name off len : List Char) (res : String) (env : Store),
      ':' ∉ name → ':' ∉ off →
      off.dropWhile pyIsSpace = off → off.reverse.dropWhile pyIsSpace = off.reverse →
      len.dropWhile pyIsSpace = len → len.reverse.dropWhile pyIsSpace = len.reverse →
      (∀ o, off.head? = some o → o ≠ '+' ∧ o ≠ '-' ∧ o ≠ '=') →
      len ≠ [] → pyIsAlpha len = false → pyIsAlnum len = false → pyInt len = none →
      process_buffr ⟨res, name ++ ':' :: (off ++ ':' :: len), env⟩ =
        .error (.operandExpected (String.mk len))) ∧
    (∀ (name off len : List Char) (res : String) (env : Store) (zi : Int),
      ':' ∉ name → ':' ∉ off →
      off.dropWhile pyIsSpace = off → off.reverse.dropWhile pyIsSpace = off.reverse →
      len.dropWhile pyIsSpace = len → len.reverse.dropWhile pyIsSpace = len.reverse →
      (∀ o, off.head? = some o → o ≠ '+' ∧ o ≠ '-' ∧ o ≠ '=') →
      pyInt len = some zi → zi < 0 →
      process_buffr ⟨res, name ++ ':' :: (off ++ ':' :: len), env⟩ =
        .error (.negativeLength zi)) ∧
    (∀ (name off len : List Char) (res : String) (env : Store),
      ':' ∉ name → ':' ∉ off →
      off.dropWhile pyIsSpace = off → off.reverse.dropWhile pyIsSpace = off.reverse →
      len.dropWhile pyIsSpace = len → len.reverse.dropWhile pyIsSpace = len.reverse →
      (∀ o, off.head? = some o → o ≠ '+' ∧ o ≠ '-' ∧ o ≠ '=') →
      pyIsAlnum len = true → pyIsAlpha len = false → pyInt len = none →
      process_buffr ⟨res, name ++ ':' :: (off ++ ':' :: len), env⟩ =
        .error (.invalidIntLiteral (String.mk len))) ∧
    expandvars "$\x7bNAME:0:-1\x7d" [] = .error (.negativeLength (-1)) ∧
    expandvars "$\x7bNAME:0:1.5\x7d" [] = .error (.operandExpected "1.5") := by
  refine ⟨?_, ?_, ?_, by decide, by decide⟩
  · intro name off len res env hcn hco ho1 ho2 hl1 hl2 hhead hne hnalpha hnalnum hnone
    have hso := stripList_eq_self off ho1 ho2
    have hsl := stripList_eq_self len hl1 hl2
    have hy : stripList (off ++ ':' :: len) = off ++ ':' :: len :=
      stripList_append_cons off ':' len ho1 hl2 (by decide)
    rw [process_buffr_split res env name (off ++ ':' :: len) hcn, hy]
    have A : ¬(startsWith1 '+' (off ++ ':' :: len) = true) := by
      rw [startsWith1_slice_false off len '+' (Or.inl rfl) hhead]
      exact Bool.false_ne_true
    have B : ¬((startsWith1 '-' (off ++ ':' :: len) || startsWith1 '=' (off ++ ':' :: len)) = true) := by
      rw [startsWith1_slice_false off len '-' (Or.inr (Or.inl rfl)) hhead,
          startsWith1_slice_false off len '=' (Or.inr (Or.inr rfl)) hhead]
      simp
    have C : ¬(':' ∉ off ++ ':' :: len) := not_not_intro (by simp)
    have D : ¬(len = [] ∨ pyIsAlpha len = true) := by
      rintro (rfl | hA)
      · exact hne rfl
      · rw [hnalpha] at hA
        exact Bool.false_ne_true hA
    have E : (¬ pyIsAlnum len = true ∧ (pyInt len).isNone = true) :=
      ⟨by simp [hnalnum], by rw [hnone]; rfl⟩
    simp only [resolveMod, if_neg A, if_neg B, if_neg C,
      splitFirst_append ':' off len hco]
    simp only [hsl, hso]
    rw [if_neg D, if_pos E]
  · intro name off len res env zi hcn hco ho1 ho2 hl1 hl2 hhead hpz hneg
    have hso := stripList_eq_self off ho1 ho2
    have hsl := stripList_eq_self len hl1 hl2
    have hy : stripList (off ++ ':' :: len) = off ++ ':' :: len :=
      stripList_append_cons off ':' len ho1 hl2 (by decide)
    rw [process_buffr_split res env name (off ++ ':' :: len) hcn, hy]
    have A : ¬(startsWith1 '+' (off ++ ':' :: len) = true) := by
      rw [startsWith1_slice_false off len '+' (Or.inl rfl) hhead]
      exact Bool.false_ne_true
    have B : ¬((startsWith1 '-' (off ++ ':' :: len) || startsWith1 '=' (off ++ ':' :: len)) = true) := by
      rw [startsWith1_slice_false off len '-' (Or.inr (Or.inl rfl)) hhead,
          startsWith1_slice_false off len '=' (Or.inr (Or.inr rfl)) hhead]
      simp
    have C : ¬(':' ∉ off ++ ':' :: len) := not_not_intro (by simp)
    have D : ¬(len = [] ∨ pyIsAlpha len = true) := by
      rintro (rfl | hA)
      · exact pyInt_some_ne_nil hpz rfl
      · rw [pyInt_some_not_alpha hsl hpz] at hA
        exact Bool.false_ne_true hA
    have E : ¬(¬ pyIsAlnum len = true ∧ (pyInt len).isNone = true) := by
      rintro ⟨_, h2⟩
      rw [hpz] at h2
      simp at h2
    simp only [resolveMod, if_neg A, if_neg B, if_neg C,
      splitFirst_append ':' off len hco]
    simp only [hsl, hso]
    rw [if_neg D, if_neg E]
    simp only [hpz]
    rw [if_pos hneg]
  · intro name off len res env hcn hco ho1 ho2 hl1 hl2 hhead halnum hnalpha hnone
    have hso := stripList_eq_self off ho1 ho2
    have hsl := stripList_eq_self len hl1 hl2
    have hy : stripList (off ++ ':' :: len) = off ++ ':' :: len :=
      stripList_append_cons off ':' len ho1 hl2 (by decide)
    rw [process_buffr_split res env name (off ++ ':' :: len) hcn, hy]
    have A : ¬(startsWith1 '+' (off ++ ':' :: len) = true) := by
      rw [startsWith1_slice_false off len '+' (Or.inl rfl) hhead]
      exact Bool.false_ne_true
    have B : ¬((startsWith1 '-' (off ++ ':' :: len) || startsWith1 '=' (off ++ ':' :: len)) = true) := by
      rw [startsWith1_slice_false off len '-' (Or.inr (Or.inl rfl)) hhead,
          startsWith1_slice_false off len '=' (Or.inr (Or.inr rfl)) hhead]
      simp
    have C : ¬(':' ∉ off ++ ':' :: len) := not_not_intro (by simp)
    have D : ¬(len = [] ∨ pyIsAlpha len = true) := by
      rintro (rfl | hA)
      · simp [pyIsAlnum] at halnum
      · rw [hnalpha] at hA
        exact Bool.false_ne_true hA
    have E : ¬(¬ pyIsAlnum len = true ∧ (pyInt len).isNone = true) := by
      rintro ⟨h1, _⟩
      exact h1 halnum
    simp only [resolveMod, if_neg A, if_neg B, if_neg C,
      splitFirst_append ':' off len hco]
    simp only [hsl, hso]
    rw [if_neg D, if_neg E]
    simp only [hnone]

theorem slice_length_error_spec_witness :
    (pyInt ['-', '1'] = some (-1) ∧ ((-1 : Int) < 0)) ∧
    process_buffr ⟨"", ['N'] ++ ':' :: (['0'] ++ ':' :: ['-', '1']), []⟩ =
      .error (.negativeLength (-1)) :=
  ⟨⟨by decide, by decide⟩,
    slice_length_error_spec.2.1 ['N'] ['0'] ['-', '1'] "" [] (-1)
      (by decide) (by decide) (by decide) (by decide) (by decide) (by decide)
      (by intro o ho; simp at ho; subst ho; decide) (by decide) (by decide)⟩

/-- C9 counterexample: the `LENGTH` token `1a` is non-empty, not purely
alphabetic and not a valid integer literal, yet expansion fails with the raw
`int()` conversion error rather than with `OperandExpected` as claimed. -/
theorem operand_expected_counterexample :
    expandvars "$\x7bNAME:0:1a\x7d" [] = .error (.invalidIntLiteral "1a") ∧
    ExpandError.invalidIntLiteral "1a" ≠ ExpandError.operandExpected "1a" :=
  ⟨by decide, by decide⟩

/-- C10: a braced reference whose modifier text after the colon is empty or
only whitespace fails with the `"bad substitution"` error — even when the
name is bound in the store — because the empty offset token fails the
alphanumeric check. -/
theorem empty_modifier_bad_substitution :
    (∀ (name ws : List Char) (res : String) (env : Store),
      ':' ∉ name → (∀ c ∈ ws, pyIsSpace c = true) →
      process_buffr ⟨res, name ++ ':' :: ws, env⟩ = .error .badSubstitution) ∧
    (∀ (name : List Char) (env : Store),
      ':' ∉ name → '}' ∉ name →
      expandvars ("$\x7b" ++ String.mk name ++ ":\x7d") env = .error .badSubstitution) ∧
    expandvars "$\x7bNAME:\x7d" [("NAME", "x")] = .error .badSubstitution := by
  have hgen : ∀ (name ws : List Char) (res : String) (env : Store),
      ':' ∉ name → (∀ c ∈ ws, pyIsSpace c = true) →
      process_buffr ⟨res, name ++ ':' :: ws, env⟩ = .error .badSubstitution := by
    intro name ws res env h hws
    rw [process_buffr_split res env name ws h, stripList_all_space ws hws]
    simp [resolveMod, startsWith1, pyIsAlnum]
  refine ⟨hgen, ?_, by decide⟩
  intro name env hcol hbr
  rw [show expandvars ("$\x7b" ++ String.mk name ++ ":\x7d") env =
      (match scan (name ++ [':', '}']) .scanBrace ⟨"", [], env⟩ with
       | .ok st => .ok (st.result, st.env)
       | .error e => .error e) from rfl,
    show name ++ [':', '}'] = (name ++ [':']) ++ ['}'] by simp,
    scan_scanBrace_close_end (name ++ [':']) ⟨"", [], env⟩ (by simp [hbr]),
    show (⟨"", [], env⟩ : St).buffr ++ (name ++ [':']) = name ++ ':' :: [] by simp,
    hgen name [] "" env hcol (by simp)]

theorem empty_modifier_bad_substitution_witness :
    ((':' ∉ ['N']) ∧ (∀ c ∈ ([] : List Char), pyIsSpace c = true)) ∧
    process_buffr ⟨"", ['N'] ++ ':' :: [], [("N", "x")]⟩ = .error .badSubstitution :=
  ⟨⟨by decide, by simp⟩,
    empty_modifier_bad_substitution.1 ['N'] [] "" [("N", "x")] (by decide) (by simp)⟩

theorem alternate_modifier_spec_witness :
    (':' ∉ ['N'] ∧
      List.dropWhile pyIsSpace ['N'] = ['N'] ∧
      List.dropWhile pyIsSpace (List.reverse ['N']) = List.reverse ['N'] ∧
      List.dropWhile pyIsSpace (List.reverse ['a']) = List.reverse ['a']) ∧
    process_buffr ⟨"", ['N'] ++ ':' :: '+' :: ['a'], [("N", "x")]⟩ =
      .ok ⟨"" ++ (if Store.contains [("N", "x")] (String.mk ['N'])
                  then String.mk ['a'] else ""), [], [("N", "x")]⟩ :=
  ⟨⟨by decide, by decide, by decide, by decide⟩,
    alternate_modifier_spec.1 ['N'] ['a'] "" [("N", "x")]
      (by decide) (by decide) (by decide) (by decide)⟩

end Expandvars
